import Mathlib

/-!
Verification of the galileo tile-loading and render-bundle core.

Rust strings are modelled as lists of bytes (`List Nat`, each entry a UTF-8
code unit).  The placeholder patterns of the URL template engine are the
three-byte sequences 123 m 125 (an opening brace, one of the ASCII letters
z, x, y, and a closing brace).
-/

namespace Galileo

/-- Byte sequences standing for UTF-8 encoded Rust strings. -/
abbrev ByteStr := List Nat

/-- Digit expansion helper: digits of n in base ten, most significant
first, empty for zero; fuel bounds the recursion depth and any fuel of at
least the digit count (in particular n itself) gives the full expansion. -/
def natDecGo : Nat → Nat → ByteStr
  | 0, _ => []
  | fuel + 1, n => if n = 0 then [] else natDecGo fuel (n / 10) ++ [48 + n % 10]

/-- Decimal rendering of a natural number, as produced by Rust to_string:
most significant digit first, a single 48 (the zero digit) for zero. -/
def natDec (n : Nat) : ByteStr :=
  if n = 0 then [48] else natDecGo n n

/-- Decimal rendering of an integer: a leading 45 (minus sign) for negatives. -/
def intDec : Int → ByteStr
  | Int.ofNat n => natDec n
  | Int.negSucc n => 45 :: natDec (n + 1)

/-- Modelled from the spec: TileIndex is an immutable integer triple
(zoom, x, y) identifying a tile; the file defining it is outside the
sources under study, which only consume its three components. -/
structure TileIndex where
  z : Int
  x : Int
  y : Int

/-- Rust str replace specialized to a three-byte placeholder pattern
123, m, 125: scan left to right, replace each non-overlapping occurrence
of the pattern by r, copy every other byte. -/
def repl3 (m : Nat) (r : ByteStr) : ByteStr → ByteStr
  | a :: b :: c :: u =>
    if a = 123 ∧ b = m ∧ c = 125 then r ++ repl3 m r u
    else a :: repl3 m r (b :: c :: u)
  | a :: u => a :: repl3 m r u
  | [] => []

/-- Simultaneous substitution of the three placeholders, written from the
spec sentence: the template with every occurrence of the z, x and y
placeholders replaced by the given byte strings. -/
def specSubst (rz rx ry : ByteStr) : ByteStr → ByteStr
  | a :: b :: c :: u =>
    if a = 123 ∧ b = 122 ∧ c = 125 then rz ++ specSubst rz rx ry u
    else if a = 123 ∧ b = 120 ∧ c = 125 then rx ++ specSubst rz rx ry u
    else if a = 123 ∧ b = 121 ∧ c = 125 then ry ++ specSubst rz rx ry u
    else a :: specSubst rz rx ry (b :: c :: u)
  | a :: u => a :: specSubst rz rx ry u
  | [] => []

/-- Does the placeholder with middle byte m occur at the head of the string? -/
def patHead (m : Nat) : ByteStr → Bool
  | a :: b :: c :: _ => decide (a = 123 ∧ b = m ∧ c = 125)
  | _ => false

/-- Does the placeholder with middle byte m occur anywhere in the string? -/
def hasPat (m : Nat) : ByteStr → Bool
  | [] => false
  | a :: u => patHead m (a :: u) || hasPat m u

/-- Percent-encoding predicate of the urlencoding crate: ASCII
alphanumerics and minus, dot, underscore, tilde pass through unescaped. -/
def isUnreservedByte (b : Nat) : Bool :=
  (48 ≤ b && b ≤ 57) || (65 ≤ b && b ≤ 90) || (97 ≤ b && b ≤ 122) ||
    b == 45 || b == 46 || b == 95 || b == 126

/-- Uppercase hexadecimal digit of the low nibble of n. -/
def hexDigit (n : Nat) : Nat :=
  if n % 16 < 10 then 48 + n % 16 else 55 + n % 16

/-- Percent-encoding of one byte as by the urlencoding crate: unreserved
bytes pass through, any other byte becomes 37 (percent) followed by two
uppercase hex digits. -/
def encodeByte (b : Nat) : ByteStr :=
  if isUnreservedByte b then [b] else [37, hexDigit (b / 16), hexDigit b]

/-- Percent-encoding of a byte string (urlencoding encode). -/
def encode (s : ByteStr) : ByteStr := (s.map encodeByte).flatten

/-- The query string generate_url builds for a non-empty parameter list:
each pair rendered as encoded key, 61 (equals sign), encoded value, and the
pairs joined by 38 (ampersand) in list order. -/
def queryString (params : List (ByteStr × ByteStr)) : ByteStr :=
  List.intercalate [38] (params.map fun kv => encode kv.1 ++ 61 :: encode kv.2)

/-- DynamicUrlVtLoader generate_url: replace the z placeholder, then the x
placeholder, then the y placeholder by the decimal components of the index,
and, when the parameter list is non-empty, append 63 (question mark)
followed by the query string. -/
def generate_url (template : ByteStr) (params : List (ByteStr × ByteStr))
    (idx : TileIndex) : ByteStr :=
  let url := repl3 121 (intDec idx.y)
    (repl3 120 (intDec idx.x) (repl3 122 (intDec idx.z) template))
  if params.isEmpty then url else url ++ 63 :: queryString params

/-- Value of a hexadecimal digit byte, if it is one. -/
def hexVal (c : Nat) : Option Nat :=
  if 48 ≤ c ∧ c ≤ 57 then some (c - 48)
  else if 65 ≤ c ∧ c ≤ 70 then some (c - 55)
  else if 97 ≤ c ∧ c ≤ 102 then some (c - 87)
  else none

/-- Modelled from the spec: percent-decoding, the inverse direction of the
round-trip law for query parameters (the repository contains no decoder; the
spec states that decoding the encoded keys and values recovers the
originals).  A 37 byte followed by two hex digits decodes to the byte they
denote; every other byte passes through unchanged. -/
def percentDecode : ByteStr → ByteStr
  | 37 :: h :: l :: rest =>
    match hexVal h, hexVal l with
    | some a, some b => (16 * a + b) :: percentDecode rest
    | _, _ => 37 :: percentDecode (h :: l :: rest)
  | c :: rest => c :: percentDecode rest
  | [] => []

/-! Facts about decimal renderings: every byte is a minus sign or a digit,
and the rendering is never empty. -/

/-- Bytes that can appear in a decimal rendering: 45 (minus) or a digit. -/
def goodByte (b : Nat) : Prop := b = 45 ∨ (48 ≤ b ∧ b < 58)

/-- Replacement strings whose bytes are all decimal-rendering bytes. -/
def goodRep (r : ByteStr) : Prop := ∀ b ∈ r, goodByte b

/-- First-two-bytes test: does the string start with byte p then byte q? -/
def starts2 (p q : Nat) : ByteStr → Bool
  | a :: b :: _ => decide (a = p ∧ b = q)
  | _ => false

/-- Well-formed byte strings: every entry is an actual byte. -/
def wfStr (s : ByteStr) : Prop := ∀ b ∈ s, b < 256

/-! The tile loaders: cache lookup, offline short-circuit, platform fetch,
error mapping and best-effort cache write-back. -/

/-- Error type of the vector tile loader. -/
inductive TileLoadError
  | Network
  | DoesNotExist
  | Decoding
deriving DecidableEq

/-- Outcome of the platform byte-fetch capability for one URL: success with
bytes, the not-found failure, or any other failure. -/
inductive FetchOutcome
  | ok (bytes : ByteStr)
  | notFound
  | otherError
deriving DecidableEq

/-- Log events emitted by load_raw, standing for its log calls. -/
inductive LogEvent
  | cacheHit
  | loadedFromUrl
  | cacheWriteFailed
deriving DecidableEq

/-- Result of one load_raw run: the returned value, the number of times the
platform fetch capability was invoked, and the emitted log events. -/
structure LoadRawResult where
  result : Except TileLoadError ByteStr
  fetchCalls : Nat
  log : List LogEvent

/-- WebVtLoader load_raw.  The persistent cache controller is modelled by
its get function (none when no cache is configured), the platform fetch
capability by the outcome it would produce for each url, and the cache
insert by whether it would succeed; an insert failure is only logged. -/
def WebVtLoader.load_raw (cache : Option (ByteStr → Option ByteStr))
    (offline_mode : Bool) (fetch : ByteStr → FetchOutcome)
    (insertOk : ByteStr → ByteStr → Bool) (url : ByteStr) : LoadRawResult :=
  match cache.bind (fun get => get url) with
  | some data => ⟨Except.ok data, 0, [LogEvent.cacheHit]⟩
  | none =>
    if offline_mode then ⟨Except.error TileLoadError.DoesNotExist, 0, []⟩
    else
      match fetch url with
      | FetchOutcome.notFound => ⟨Except.error TileLoadError.DoesNotExist, 1, []⟩
      | FetchOutcome.otherError => ⟨Except.error TileLoadError.Network, 1, []⟩
      | FetchOutcome.ok bytes =>
        match cache with
        | none => ⟨Except.ok bytes, 1, [LogEvent.loadedFromUrl]⟩
        | some _ =>
          if insertOk url bytes then
            ⟨Except.ok bytes, 1, [LogEvent.loadedFromUrl]⟩
          else
            ⟨Except.ok bytes, 1,
              [LogEvent.loadedFromUrl, LogEvent.cacheWriteFailed]⟩

/-- DynamicUrlVtLoader load_raw, textually identical to the WebVtLoader
version in the source. -/
def DynamicUrlVtLoader.load_raw (cache : Option (ByteStr → Option ByteStr))
    (offline_mode : Bool) (fetch : ByteStr → FetchOutcome)
    (insertOk : ByteStr → ByteStr → Bool) (url : ByteStr) : LoadRawResult :=
  match cache.bind (fun get => get url) with
  | some data => ⟨Except.ok data, 0, [LogEvent.cacheHit]⟩
  | none =>
    if offline_mode then ⟨Except.error TileLoadError.DoesNotExist, 0, []⟩
    else
      match fetch url with
      | FetchOutcome.notFound => ⟨Except.error TileLoadError.DoesNotExist, 1, []⟩
      | FetchOutcome.otherError => ⟨Except.error TileLoadError.Network, 1, []⟩
      | FetchOutcome.ok bytes =>
        match cache with
        | none => ⟨Except.ok bytes, 1, [LogEvent.loadedFromUrl]⟩
        | some _ =>
          if insertOk url bytes then
            ⟨Except.ok bytes, 1, [LogEvent.loadedFromUrl]⟩
          else
            ⟨Except.ok bytes, 1,
              [LogEvent.loadedFromUrl, LogEvent.cacheWriteFailed]⟩

/-- WebVtLoader load: compute the url with the url source, run load_raw,
decode the bytes; a decode failure maps to the Decoding error.  MvtTile
decoding lives outside the sources under study and is abstracted by the
decode parameter. -/
def WebVtLoader.load {Tile : Type} (decode : ByteStr → Option Tile)
    (cache : Option (ByteStr → Option ByteStr)) (offline_mode : Bool)
    (fetch : ByteStr → FetchOutcome) (insertOk : ByteStr → ByteStr → Bool)
    (url_source : TileIndex → ByteStr) (index : TileIndex) :
    Except TileLoadError Tile :=
  match (WebVtLoader.load_raw cache offline_mode fetch insertOk
      (url_source index)).result with
  | Except.error e => Except.error e
  | Except.ok bytes =>
    match decode bytes with
    | none => Except.error TileLoadError.Decoding
    | some tile => Except.ok tile

/-- DynamicUrlVtLoader load: same as WebVtLoader load but the url comes
from generate_url on the current template and parameters. -/
def DynamicUrlVtLoader.load {Tile : Type} (decode : ByteStr → Option Tile)
    (template : ByteStr) (params : List (ByteStr × ByteStr))
    (cache : Option (ByteStr → Option ByteStr)) (offline_mode : Bool)
    (fetch : ByteStr → FetchOutcome) (insertOk : ByteStr → ByteStr → Bool)
    (index : TileIndex) : Except TileLoadError Tile :=
  match (DynamicUrlVtLoader.load_raw cache offline_mode fetch insertOk
      (generate_url template params index)).result with
  | Except.error e => Except.error e
  | Except.ok bytes =>
    match decode bytes with
    | none => Except.error TileLoadError.Decoding
    | some tile => Except.ok tile

/-! The render bundle: world set versus screen sets.  Scalars of the render
types (f32 and f64 in the source) are modelled by rationals. -/

/-- A three-dimensional cartesian point. -/
structure Point3 where
  x : ℚ
  y : ℚ
  z : ℚ
deriving DecidableEq

/-- A two-dimensional vector (offsets, anchors, sizes). -/
structure Vector2 where
  x : ℚ
  y : ℚ
deriving DecidableEq

/-- An RGBA color. -/
structure Color where
  r : Nat
  g : Nat
  b : Nat
  a : Nat
deriving DecidableEq

def Color.BLACK : Color := ⟨0, 0, 0, 255⟩

def Color.WHITE : Color := ⟨255, 255, 255, 255⟩

def Color.TRANSPARENT : Color := ⟨0, 0, 0, 0⟩

inductive HorizontalAlignment
  | left
  | center
  | right
deriving DecidableEq

inductive VerticalAlignment
  | top
  | middle
  | bottom
deriving DecidableEq

inductive FontStyle
  | normal
  | italic
  | oblique
deriving DecidableEq

structure FontWeight where
  value : Nat
deriving DecidableEq

def FontWeight.NORMAL : FontWeight := ⟨400⟩

/-- Text style carried by labels and the text marker symbol. -/
structure TextStyle where
  font_family : List String
  font_size : ℚ
  font_color : Color
  horizontal_alignment : HorizontalAlignment
  vertical_alignment : VerticalAlignment
  weight : FontWeight
  style : FontStyle
  outline_width : ℚ
  outline_color : Color
deriving DecidableEq

/-- Modelled from the spec: the paint descriptor of point primitives
(render/point_paint.rs is outside the sources under study); the
constructors mirror the ones the symbol code invokes. -/
inductive PointPaint
  | circle (color : Color) (size : ℚ)
  | square (color : Color) (size : ℚ)
  | label (text : String) (style : TextStyle)
deriving DecidableEq

/-- Modelled from the spec: a decoded image, reduced to its dimensions
(the pixel buffer is irrelevant to the properties under study). -/
structure DecodedImage where
  width : Nat
  height : Nat
deriving DecidableEq

/-- Modelled from the spec: marker style of screen-anchored markers, as
constructed by ImagePointSymbol. -/
inductive MarkerStyle
  | image (img : DecodedImage) (anchor : Vector2) (size : Option Vector2)
deriving DecidableEq

/-- Modelled from the spec: line paint descriptor, opaque at the bundle
boundary (its fields are never inspected by the code under study). -/
structure LinePaint where
  tag : Nat
deriving DecidableEq

/-- Modelled from the spec: polygon paint descriptor, opaque at the bundle
boundary. -/
structure PolygonPaint where
  tag : Nat
deriving DecidableEq

/-- Modelled from the spec: image paint descriptor, opaque at the bundle
boundary. -/
structure ImagePaint where
  tag : Nat
deriving DecidableEq

/-- A contour (line geometry) as a list of points. -/
abbrev Contour := List Point3

/-- A polygon geometry as a list of contours. -/
abbrev PolygonGeom := List Contour

/-- One image entry of the world set. -/
structure ImageEntry where
  image : DecodedImage
  vertices : List Vector2
  paint : ImagePaint
deriving DecidableEq

/-- Modelled from the spec: the world render set maps each primitive kind
to its batched collection in map coordinates (render_bundle/world_set.rs is
outside the sources under study); each add operation appends one entry of
its kind, and add_line and add_polygon receive the caller's min_resolution
for their tessellation. -/
structure WorldRenderSet where
  points : List (Point3 × PointPaint)
  lines : List (Contour × LinePaint × ℚ)
  polygons : List (PolygonGeom × PolygonPaint × ℚ)
  images : List ImageEntry
  labels : List (Point3 × String × TextStyle × Vector2)
deriving DecidableEq

def WorldRenderSet.add_point (w : WorldRenderSet) (point : Point3)
    (paint : PointPaint) : WorldRenderSet :=
  { w with points := w.points ++ [(point, paint)] }

def WorldRenderSet.add_line (w : WorldRenderSet) (line : Contour)
    (paint : LinePaint) (min_resolution : ℚ) : WorldRenderSet :=
  { w with lines := w.lines ++ [(line, paint, min_resolution)] }

def WorldRenderSet.add_polygon (w : WorldRenderSet) (polygon : PolygonGeom)
    (paint : PolygonPaint) (min_resolution : ℚ) : WorldRenderSet :=
  { w with polygons := w.polygons ++ [(polygon, paint, min_resolution)] }

def WorldRenderSet.add_image (w : WorldRenderSet) (image : DecodedImage)
    (vertices : List Vector2) (paint : ImagePaint) : WorldRenderSet :=
  { w with images := w.images ++ [⟨image, vertices, paint⟩] }

def WorldRenderSet.add_label (w : WorldRenderSet) (position : Point3)
    (text : String) (style : TextStyle) (offset : Vector2) : WorldRenderSet :=
  { w with labels := w.labels ++ [(position, text, style, offset)] }

/-- Content of one screen render set entry. -/
inductive ScreenSetContent
  | label (text : String) (style : TextStyle) (offset : Vector2)
  | marker (style : MarkerStyle)
deriving DecidableEq

/-- Modelled from the spec: a screen render set is one screen-anchored
entry with its anchor position and content
(render_bundle/screen_set.rs is outside the sources under study). -/
structure ScreenRenderSet where
  position : Point3
  content : ScreenSetContent
deriving DecidableEq

/-- Modelled from the spec: each label call that yields screen content
creates a new screen-set entry anchored at the label position; the spec
states no failure condition for label construction, so it always yields an
entry. -/
def ScreenRenderSet.new_from_label (position : Point3) (text : String)
    (style : TextStyle) (offset : Vector2) : Option ScreenRenderSet :=
  some ⟨position, ScreenSetContent.label text style offset⟩

/-- Modelled from the spec: each marker call that yields screen content
creates a new screen-set entry anchored at the marker position. -/
def ScreenRenderSet.new_from_marker (position : Point3)
    (style : MarkerStyle) : Option ScreenRenderSet :=
  some ⟨position, ScreenSetContent.marker style⟩

/-- The render bundle: one world set and an ordered sequence of screen
sets. -/
structure RenderBundle where
  world_set : WorldRenderSet
  screen_sets : List ScreenRenderSet
deriving DecidableEq

def RenderBundle.add_image (bundle : RenderBundle) (image : DecodedImage)
    (vertices : List Vector2) (paint : ImagePaint) : RenderBundle :=
  { bundle with world_set := bundle.world_set.add_image image vertices paint }

/-- RenderBundle add_point: forwards to the world set, ignoring its
min_resolution argument exactly as the source does. -/
def RenderBundle.add_point (bundle : RenderBundle) (point : Point3)
    (paint : PointPaint) (_min_resolution : ℚ) : RenderBundle :=
  { bundle with world_set := bundle.world_set.add_point point paint }

def RenderBundle.add_line (bundle : RenderBundle) (line : Contour)
    (paint : LinePaint) (min_resolution : ℚ) : RenderBundle :=
  { bundle with
    world_set := bundle.world_set.add_line line paint min_resolution }

def RenderBundle.add_polygon (bundle : RenderBundle) (polygon : PolygonGeom)
    (paint : PolygonPaint) (min_resolution : ℚ) : RenderBundle :=
  { bundle with
    world_set := bundle.world_set.add_polygon polygon paint min_resolution }

/-- RenderBundle add_label: attach_to_map routes to the world set,
otherwise a new screen set entry is appended when construction yields
one. -/
def RenderBundle.add_label (bundle : RenderBundle) (position : Point3)
    (text : String) (style : TextStyle) (offset : Vector2)
    (attach_to_map : Bool) : RenderBundle :=
  if attach_to_map then
    { bundle with
      world_set := bundle.world_set.add_label position text style offset }
  else
    match ScreenRenderSet.new_from_label position text style offset with
    | some set => { bundle with screen_sets := bundle.screen_sets ++ [set] }
    | none => bundle

/-- RenderBundle add_marker: appends a new screen set entry when
construction yields one. -/
def RenderBundle.add_marker (bundle : RenderBundle) (position : Point3)
    (style : MarkerStyle) : RenderBundle :=
  match ScreenRenderSet.new_from_marker position style with
  | some set => { bundle with screen_sets := bundle.screen_sets ++ [set] }
  | none => bundle

/-! The point symbols of the feature layer. -/

/-- Geometry variants handled by the point symbols; the contour and
polygon variants stand for the remaining geometry kinds caught by the
wildcard arm of the source match. -/
inductive Geom
  | point (p : Point3)
  | multiPoint (ps : List Point3)
  | contour (c : Contour)
  | polygon (pg : PolygonGeom)
deriving DecidableEq

/-- Renders a point as a circle of fixed size. -/
structure CirclePointSymbol where
  color : Color
  size : ℚ
deriving DecidableEq

/-- CirclePointSymbol render: a circle paint from the symbol's color and
size; a point adds one world point, a multi-point adds one per constituent
point, any other geometry adds nothing. -/
def CirclePointSymbol.render {F : Type} (s : CirclePointSymbol)
    (_feature : F) (geometry : Geom) (min_resolution : ℚ)
    (bundle : RenderBundle) : RenderBundle :=
  let paint := PointPaint.circle s.color s.size
  match geometry with
  | Geom.point p => bundle.add_point p paint min_resolution
  | Geom.multiPoint ps =>
    ps.foldl (fun b p => b.add_point p paint min_resolution) bundle
  | _ => bundle

/-- Symbol that renders a point with an image of fixed on-screen size. -/
structure ImagePointSymbol where
  image : DecodedImage
  offset : Vector2
  scale : ℚ
deriving DecidableEq

/-- ImagePointSymbol render: each point becomes a screen marker with the
symbol's image, its offset as anchor and its scaled size. -/
def ImagePointSymbol.render {F : Type} (s : ImagePointSymbol)
    (_feature : F) (geometry : Geom) (_min_resolution : ℚ)
    (bundle : RenderBundle) : RenderBundle :=
  let add_marker := fun (point : Point3) (bundle : RenderBundle) =>
    bundle.add_marker point
      (MarkerStyle.image s.image s.offset
        (some ⟨(s.image.width : ℚ) * s.scale, (s.image.height : ℚ) * s.scale⟩))
  match geometry with
  | Geom.point p => add_marker p bundle
  | Geom.multiPoint ps => ps.foldl (fun b p => add_marker p b) bundle
  | _ => bundle

/-- Symbol that renders text with a black rectangular background. -/
structure TextMarkerSymbol where
  text_style : TextStyle
  padding : ℚ
deriving DecidableEq

/-- TextMarkerSymbol render: for each point, first a black background
square sized from the padded estimated text dimensions, then the text
label, both submitted through add_point; the feature provides the text
through its get_text capability. -/
def TextMarkerSymbol.render {F : Type} (s : TextMarkerSymbol)
    (get_text : F → String) (feature : F) (geometry : Geom)
    (min_resolution : ℚ) (bundle : RenderBundle) : RenderBundle :=
  let text := get_text feature
  let render_text_marker := fun (point : Point3) (bundle : RenderBundle) =>
    let estimated_char_width := s.text_style.font_size * (3 / 5)
    let text_width := estimated_char_width * (text.utf8ByteSize : ℚ)
    let text_height := s.text_style.font_size
    let bg_width := text_width + s.padding * 2
    let bg_height := text_height + s.padding * 2
    let bg_paint := PointPaint.square Color.BLACK (max bg_width bg_height)
    let bundle2 := bundle.add_point point bg_paint min_resolution
    bundle2.add_point point (PointPaint.label text s.text_style) min_resolution
  match geometry with
  | Geom.point p => render_text_marker p bundle
  | Geom.multiPoint ps => ps.foldl (fun b p => render_text_marker p b) bundle
  | _ => bundle

/-! Helper lemmas: folding point or marker submissions over a list. -/
theorem goodByte_ne {b : Nat} (h : goodByte b) :
    b ≠ 123 ∧ b ≠ 125 ∧ b ≠ 120 ∧ b ≠ 121 ∧ b ≠ 122 := by
  rcases h with h | h <;> omega

theorem goodRep_natDecGo (fuel : Nat) : ∀ n, goodRep (natDecGo fuel n) := by
  induction fuel with
  | zero => intro n b hb; simp [natDecGo] at hb
  | succ f ih =>
    intro n b hb
    simp only [natDecGo] at hb
    by_cases h : n = 0
    · simp [h] at hb
    · simp only [h, if_false, List.mem_append, List.mem_singleton] at hb
      rcases hb with hb | hb
      · exact ih _ _ hb
      · subst hb; right; omega

theorem goodRep_natDec (n : Nat) : goodRep (natDec n) := by
  unfold natDec
  by_cases h : n = 0
  · simp only [h, if_true]
    intro b hb
    simp at hb
    subst hb; right; omega
  · simp only [h, if_false]
    exact goodRep_natDecGo n n

theorem natDecGo_ne_nil {fuel n : Nat} (hf : fuel ≠ 0) (hn : n ≠ 0) :
    natDecGo fuel n ≠ [] := by
  cases fuel with
  | zero => exact absurd rfl hf
  | succ f => simp [natDecGo, hn]

theorem natDec_ne_nil (n : Nat) : natDec n ≠ [] := by
  unfold natDec
  by_cases h : n = 0
  · simp [h]
  · simp only [h, if_false]
    exact natDecGo_ne_nil h h

theorem goodRep_intDec (i : Int) : goodRep (intDec i) := by
  cases i with
  | ofNat n => exact goodRep_natDec n
  | negSucc n =>
    intro b hb
    simp only [intDec, List.mem_cons] at hb
    rcases hb with hb | hb
    · subst hb; left; rfl
    · exact goodRep_natDec _ _ hb

theorem intDec_ne_nil (i : Int) : intDec i ≠ [] := by
  cases i with
  | ofNat n => exact natDec_ne_nil n
  | negSucc n => simp [intDec]

/-! Unfolding lemmas for the replacement scanners. -/

theorem repl3_pat (m : Nat) (r : ByteStr) (u : ByteStr) :
    repl3 m r (123 :: m :: 125 :: u) = r ++ repl3 m r u := by
  simp [repl3]

theorem repl3_cons {m : Nat} (r : ByteStr) {a : Nat} {u : ByteStr}
    (h : patHead m (a :: u) = false) : repl3 m r (a :: u) = a :: repl3 m r u := by
  cases u with
  | nil => simp [repl3]
  | cons b v =>
    cases v with
    | nil => simp [repl3]
    | cons c w =>
      simp only [patHead, decide_eq_false_iff_not] at h
      simp [repl3, h]

theorem specSubst_patZ (rz rx ry : ByteStr) (u : ByteStr) :
    specSubst rz rx ry (123 :: 122 :: 125 :: u) = rz ++ specSubst rz rx ry u := by
  simp [specSubst]

theorem specSubst_patX (rz rx ry : ByteStr) (u : ByteStr) :
    specSubst rz rx ry (123 :: 120 :: 125 :: u) = rx ++ specSubst rz rx ry u := by
  simp [specSubst]

theorem specSubst_patY (rz rx ry : ByteStr) (u : ByteStr) :
    specSubst rz rx ry (123 :: 121 :: 125 :: u) = ry ++ specSubst rz rx ry u := by
  simp [specSubst]

theorem specSubst_cons (rz rx ry : ByteStr) {a : Nat} {u : ByteStr}
    (hz : patHead 122 (a :: u) = false) (hx : patHead 120 (a :: u) = false)
    (hy : patHead 121 (a :: u) = false) :
    specSubst rz rx ry (a :: u) = a :: specSubst rz rx ry u := by
  cases u with
  | nil => simp [specSubst]
  | cons b v =>
    cases v with
    | nil => simp [specSubst]
    | cons c w =>
      simp only [patHead, decide_eq_false_iff_not] at hz hx hy
      simp [specSubst, hz, hx, hy]

/-! Head-preservation: a replacement pass with decimal-rendering bytes never
creates or destroys a placeholder occurrence at the head of the string. -/

theorem starts2_cons_ne {p a : Nat} (q : Nat) (w : ByteStr) (h : a ≠ p) :
    starts2 p q (a :: w) = false := by
  cases w with
  | nil => rfl
  | cons b v => simp [starts2, h]

theorem patHead_eq_starts2 (m a : Nat) (u : ByteStr) :
    patHead m (a :: u) = (decide (a = 123) && starts2 m 125 u) := by
  cases u with
  | nil => simp [patHead, starts2]
  | cons b v =>
    cases v with
    | nil => simp [patHead, starts2]
    | cons c w => by_cases h : a = 123 <;> simp [patHead, starts2, h, and_assoc]

theorem patHead_false_left {a : Nat} (m : Nat) (w : ByteStr) (h : a ≠ 123) :
    patHead m (a :: w) = false := by
  rw [patHead_eq_starts2]
  simp [h]

theorem patHead_true {m : Nat} {s : ByteStr} (h : patHead m s = true) :
    ∃ w, s = 123 :: m :: 125 :: w := by
  cases s with
  | nil => simp [patHead] at h
  | cons a u =>
    cases u with
    | nil => simp [patHead] at h
    | cons b v =>
      cases v with
      | nil => simp [patHead] at h
      | cons c w =>
        simp only [patHead, decide_eq_true_eq] at h
        exact ⟨w, by rw [h.1, h.2.1, h.2.2]⟩

theorem starts2_repl3 {m : Nat} (hm : m = 120 ∨ m = 121 ∨ m = 122) (mi : Nat)
    {r : ByteStr} (hg : goodRep r) (hr : r ≠ []) :
    ∀ t, starts2 m 125 (repl3 mi r t) = starts2 m 125 t := by
  obtain ⟨r0, r1, rfl⟩ : ∃ r0 r1, r = r0 :: r1 := by
    cases r with
    | nil => exact absurd rfl hr
    | cons r0 r1 => exact ⟨r0, r1, rfl⟩
  have h0 := goodByte_ne (hg r0 (List.mem_cons_self r0 r1))
  have hm123 : (123 : Nat) ≠ m := by omega
  have hr0m : r0 ≠ m := by omega
  have hr0_125 : r0 ≠ 125 := h0.2.1
  intro t
  by_cases hp : patHead mi t = true
  · obtain ⟨w, rfl⟩ := patHead_true hp
    rw [repl3_pat, List.cons_append, starts2_cons_ne _ _ hr0m,
      starts2_cons_ne _ _ hm123]
  · have hp' : patHead mi t = false := by simpa using hp
    cases t with
    | nil => simp [repl3]
    | cons a u =>
      rw [repl3_cons _ hp']
      cases u with
      | nil => simp [repl3, starts2]
      | cons b v =>
        by_cases hq : patHead mi (b :: v) = true
        · obtain ⟨w, hw⟩ := patHead_true hq
          rw [hw, repl3_pat, List.cons_append]
          simp [starts2, hr0_125]
        · have hq' : patHead mi (b :: v) = false := by simpa using hq
          rw [repl3_cons _ hq']
          simp [starts2]

theorem specSubst_of_patHead {rz rx ry t : ByteStr}
    (h : patHead 122 t = true ∨ patHead 120 t = true ∨ patHead 121 t = true) :
    ∃ rep k w, (rep = rz ∨ rep = rx ∨ rep = ry) ∧ t = 123 :: k :: 125 :: w ∧
      specSubst rz rx ry t = rep ++ specSubst rz rx ry w := by
  rcases h with h | h | h
  · obtain ⟨w, rfl⟩ := patHead_true h
    exact ⟨rz, 122, w, Or.inl rfl, rfl, specSubst_patZ rz rx ry w⟩
  · obtain ⟨w, rfl⟩ := patHead_true h
    exact ⟨rx, 120, w, Or.inr (Or.inl rfl), rfl, specSubst_patX rz rx ry w⟩
  · obtain ⟨w, rfl⟩ := patHead_true h
    exact ⟨ry, 121, w, Or.inr (Or.inr rfl), rfl, specSubst_patY rz rx ry w⟩

theorem starts2_specSubst {m : Nat} (hm : m = 120 ∨ m = 121 ∨ m = 122)
    {rz rx ry : ByteStr} (hgz : goodRep rz) (hgx : goodRep rx) (hgy : goodRep ry)
    (hz : rz ≠ []) (hx : rx ≠ []) (hy : ry ≠ []) :
    ∀ t, starts2 m 125 (specSubst rz rx ry t) = starts2 m 125 t := by
  have hrep : ∀ rep : ByteStr, (rep = rz ∨ rep = rx ∨ rep = ry) →
      goodRep rep ∧ rep ≠ [] := by
    intro rep h
    rcases h with rfl | rfl | rfl
    · exact ⟨hgz, hz⟩
    · exact ⟨hgx, hx⟩
    · exact ⟨hgy, hy⟩
  intro t
  by_cases hp : patHead 122 t = true ∨ patHead 120 t = true ∨ patHead 121 t = true
  · obtain ⟨rep, k, w, hr, rfl, heq⟩ := specSubst_of_patHead hp
    obtain ⟨hgr, hne⟩ := hrep rep hr
    obtain ⟨p0, p1, rfl⟩ : ∃ p0 p1, rep = p0 :: p1 := by
      cases rep with
      | nil => exact absurd rfl hne
      | cons p0 p1 => exact ⟨p0, p1, rfl⟩
    have h0 := goodByte_ne (hgr p0 (List.mem_cons_self p0 p1))
    rw [heq, List.cons_append, starts2_cons_ne _ _ (by omega : p0 ≠ m),
      starts2_cons_ne _ _ (by omega : (123 : Nat) ≠ m)]
  · push_neg at hp
    obtain ⟨hz1, hx1, hy1⟩ := hp
    have hz' : patHead 122 t = false := by simpa using hz1
    have hx' : patHead 120 t = false := by simpa using hx1
    have hy' : patHead 121 t = false := by simpa using hy1
    cases t with
    | nil => rfl
    | cons a u =>
      rw [specSubst_cons _ _ _ hz' hx' hy']
      cases u with
      | nil => simp [specSubst, starts2]
      | cons b v =>
        by_cases hq : patHead 122 (b :: v) = true ∨ patHead 120 (b :: v) = true ∨
            patHead 121 (b :: v) = true
        · obtain ⟨rep, k, w, hr, hw, heq⟩ := specSubst_of_patHead hq
          obtain ⟨hgr, hne⟩ := hrep rep hr
          obtain ⟨p0, p1, rfl⟩ : ∃ p0 p1, rep = p0 :: p1 := by
            cases rep with
            | nil => exact absurd rfl hne
            | cons p0 p1 => exact ⟨p0, p1, rfl⟩
          have h0 := goodByte_ne (hgr p0 (List.mem_cons_self p0 p1))
          rw [heq, hw, List.cons_append]
          simp [starts2, h0.2.1]
        · push_neg at hq
          obtain ⟨hz2, hx2, hy2⟩ := hq
          rw [specSubst_cons _ _ _ (by simpa using hz2) (by simpa using hx2)
            (by simpa using hy2)]
          simp [starts2]

/-- A replacement pass distributes over a prefix containing no opening
brace: no pattern can start inside such a prefix. -/
theorem repl3_append_no_brace {r : ByteStr} (h : ∀ b ∈ r, b ≠ 123) (m : Nat)
    (rep s : ByteStr) : repl3 m rep (r ++ s) = r ++ repl3 m rep s := by
  induction r with
  | nil => rfl
  | cons a r ih =>
    rw [List.cons_append,
      repl3_cons _ (patHead_false_left m _ (h a (List.mem_cons_self a r))),
      ih (fun b hb => h b (List.mem_cons_of_mem a hb)), List.cons_append]

/-- Replacing the z placeholder, then the x placeholder, then the y
placeholder, each by a non-empty string of decimal-rendering bytes, agrees
with the simultaneous substitution of all three placeholders. -/
theorem triple_repl_eq_specSubst {rz rx ry : ByteStr}
    (hgz : goodRep rz) (hgx : goodRep rx) (_hgy : goodRep ry)
    (hz : rz ≠ []) (hx : rx ≠ []) (_hy : ry ≠ []) :
    ∀ s, repl3 121 ry (repl3 120 rx (repl3 122 rz s)) = specSubst rz rx ry s := by
  have hnz : ∀ b ∈ rz, b ≠ 123 := fun b hb => (goodByte_ne (hgz b hb)).1
  have hnx : ∀ b ∈ rx, b ≠ 123 := fun b hb => (goodByte_ne (hgx b hb)).1
  suffices h : ∀ n s, s.length ≤ n →
      repl3 121 ry (repl3 120 rx (repl3 122 rz s)) = specSubst rz rx ry s by
    exact fun s => h s.length s le_rfl
  intro n
  induction n with
  | zero =>
    intro s hs
    have hnil : s = [] := List.eq_nil_of_length_eq_zero (Nat.le_zero.mp hs)
    subst hnil; rfl
  | succ n ih =>
    intro s hs
    by_cases hpz : patHead 122 s = true
    · obtain ⟨u, rfl⟩ := patHead_true hpz
      rw [repl3_pat, repl3_append_no_brace hnz, repl3_append_no_brace hnz,
        specSubst_patZ, ih u (by simp at hs; omega)]
    · have hpz' : patHead 122 s = false := by simpa using hpz
      by_cases hpx : patHead 120 s = true
      · obtain ⟨u, rfl⟩ := patHead_true hpx
        have e1 : repl3 122 rz (123 :: 120 :: 125 :: u) =
            123 :: 120 :: 125 :: repl3 122 rz u := by
          rw [repl3_cons _ (by simp [patHead]),
            repl3_cons _ (patHead_false_left _ _ (by omega)),
            repl3_cons _ (patHead_false_left _ _ (by omega))]
        rw [e1, repl3_pat, repl3_append_no_brace hnx, specSubst_patX,
          ih u (by simp at hs; omega)]
      · have hpx' : patHead 120 s = false := by simpa using hpx
        by_cases hpy : patHead 121 s = true
        · obtain ⟨u, rfl⟩ := patHead_true hpy
          have e1 : repl3 122 rz (123 :: 121 :: 125 :: u) =
              123 :: 121 :: 125 :: repl3 122 rz u := by
            rw [repl3_cons _ (by simp [patHead]),
              repl3_cons _ (patHead_false_left _ _ (by omega)),
              repl3_cons _ (patHead_false_left _ _ (by omega))]
          have e2 : repl3 120 rx (123 :: 121 :: 125 :: repl3 122 rz u) =
              123 :: 121 :: 125 :: repl3 120 rx (repl3 122 rz u) := by
            rw [repl3_cons _ (by simp [patHead]),
              repl3_cons _ (patHead_false_left _ _ (by omega)),
              repl3_cons _ (patHead_false_left _ _ (by omega))]
          rw [e1, e2, repl3_pat, specSubst_patY, ih u (by simp at hs; omega)]
        · have hpy' : patHead 121 s = false := by simpa using hpy
          cases s with
          | nil => rfl
          | cons a u =>
            rw [repl3_cons _ hpz']
            have h2 : patHead 120 (a :: repl3 122 rz u) = false := by
              rw [patHead_eq_starts2, starts2_repl3 (Or.inl rfl) 122 hgz hz u,
                ← patHead_eq_starts2]
              exact hpx'
            rw [repl3_cons _ h2]
            have h3 : patHead 121 (a :: repl3 120 rx (repl3 122 rz u)) = false := by
              rw [patHead_eq_starts2,
                starts2_repl3 (Or.inr (Or.inl rfl)) 120 hgx hx _,
                starts2_repl3 (Or.inr (Or.inl rfl)) 122 hgz hz u,
                ← patHead_eq_starts2]
              exact hpy'
            rw [repl3_cons _ h3, specSubst_cons _ _ _ hpz' hpx' hpy',
              ih u (by simp at hs; omega)]

/-! No placeholder token remains in a substituted string, and none can be
introduced by the appended query string. -/

theorem hasPat_append_no_brace {r : ByteStr} (h : ∀ b ∈ r, b ≠ 123) (m : Nat)
    (s : ByteStr) : hasPat m (r ++ s) = hasPat m s := by
  induction r with
  | nil => rfl
  | cons a r ih =>
    rw [List.cons_append]
    simp only [hasPat]
    rw [patHead_false_left m _ (h a (List.mem_cons_self a r)),
      ih (fun b hb => h b (List.mem_cons_of_mem a hb))]
    simp

theorem hasPat_no125 {q : ByteStr} (h : 125 ∉ q) (m : Nat) : hasPat m q = false := by
  induction q with
  | nil => rfl
  | cons a u ih =>
    have h125 : 125 ∉ u := fun hu => h (List.mem_cons_of_mem a hu)
    have hhead : patHead m (a :: u) = false := by
      cases u with
      | nil => rfl
      | cons b v =>
        cases v with
        | nil => rfl
        | cons c w =>
          have hc : c ≠ 125 := by
            intro hc
            subst hc
            exact h (by simp)
          simp [patHead, hc]
    simp [hasPat, hhead, ih h125]

theorem patHead_cons_append_no125 {q : ByteStr} (h : 125 ∉ q) (m a : Nat)
    (A : ByteStr) : patHead m (a :: (A ++ q)) = patHead m (a :: A) := by
  cases A with
  | nil =>
    cases q with
    | nil => rfl
    | cons b v =>
      cases v with
      | nil => rfl
      | cons c w =>
        have hc : c ≠ 125 := by
          intro hc
          subst hc
          exact h (by simp)
        simp [patHead, hc]
  | cons b A2 =>
    cases A2 with
    | nil =>
      cases q with
      | nil => rfl
      | cons c w =>
        have hc : c ≠ 125 := by
          intro hc
          subst hc
          exact h (by simp)
        simp [patHead, hc]
    | cons c A3 => rfl

theorem hasPat_append_no125 {q : ByteStr} (h : 125 ∉ q) (m : Nat)
    (A : ByteStr) : hasPat m (A ++ q) = hasPat m A := by
  induction A with
  | nil => exact hasPat_no125 h m
  | cons a A ih =>
    rw [List.cons_append]
    simp only [hasPat]
    rw [patHead_cons_append_no125 h, ih]

/-- The simultaneous substitution leaves no placeholder occurrence when the
replacement strings are non-empty decimal renderings. -/
theorem hasPat_specSubst {m : Nat} (hm : m = 120 ∨ m = 121 ∨ m = 122)
    {rz rx ry : ByteStr} (hgz : goodRep rz) (hgx : goodRep rx) (hgy : goodRep ry)
    (hz : rz ≠ []) (hx : rx ≠ []) (hy : ry ≠ []) :
    ∀ s, hasPat m (specSubst rz rx ry s) = false := by
  have hrep : ∀ rep : ByteStr, (rep = rz ∨ rep = rx ∨ rep = ry) →
      ∀ b ∈ rep, b ≠ 123 := by
    intro rep h b hb
    rcases h with rfl | rfl | rfl
    · exact (goodByte_ne (hgz b hb)).1
    · exact (goodByte_ne (hgx b hb)).1
    · exact (goodByte_ne (hgy b hb)).1
  suffices h : ∀ n s, s.length ≤ n → hasPat m (specSubst rz rx ry s) = false by
    exact fun s => h s.length s le_rfl
  intro n
  induction n with
  | zero =>
    intro s hs
    have hnil : s = [] := List.eq_nil_of_length_eq_zero (Nat.le_zero.mp hs)
    subst hnil; rfl
  | succ n ih =>
    intro s hs
    by_cases hp : patHead 122 s = true ∨ patHead 120 s = true ∨ patHead 121 s = true
    · obtain ⟨rep, k, w, hr, rfl, heq⟩ := specSubst_of_patHead hp
      rw [heq, hasPat_append_no_brace (hrep rep hr)]
      exact ih w (by simp at hs; omega)
    · push_neg at hp
      obtain ⟨hz1, hx1, hy1⟩ := hp
      have hz' : patHead 122 s = false := by simpa using hz1
      have hx' : patHead 120 s = false := by simpa using hx1
      have hy' : patHead 121 s = false := by simpa using hy1
      cases s with
      | nil => rfl
      | cons a u =>
        rw [specSubst_cons _ _ _ hz' hx' hy']
        simp only [hasPat]
        rw [patHead_eq_starts2, starts2_specSubst hm hgz hgx hgy hz hx hy u,
          ← patHead_eq_starts2, ih u (by simp at hs; omega)]
        rcases hm with rfl | rfl | rfl
        · simp [hx']
        · simp [hy']
        · simp [hz']

/-! Byte ranges of the percent-encoded query string. -/

theorem hexDigit_mem (n : Nat) :
    (48 ≤ hexDigit n ∧ hexDigit n ≤ 57) ∨ (65 ≤ hexDigit n ∧ hexDigit n ≤ 70) := by
  unfold hexDigit
  have hlt : n % 16 < 16 := Nat.mod_lt n (by omega)
  by_cases h : n % 16 < 10
  · simp only [h, if_true]
    omega
  · simp only [h, if_false]
    omega

theorem encode_byte_cases {s : ByteStr} {b2 : Nat} (hb : b2 ∈ encode s) :
    b2 = 37 ∨ isUnreservedByte b2 = true ∨
      (48 ≤ b2 ∧ b2 ≤ 57) ∨ (65 ≤ b2 ∧ b2 ≤ 70) := by
  unfold encode at hb
  rw [List.mem_flatten] at hb
  obtain ⟨l, hl, hbl⟩ := hb
  rw [List.mem_map] at hl
  obtain ⟨b, _, rfl⟩ := hl
  unfold encodeByte at hbl
  by_cases h : isUnreservedByte b = true
  · simp only [h, if_true, List.mem_singleton] at hbl
    subst hbl
    exact Or.inr (Or.inl h)
  · simp [h] at hbl
    rcases hbl with rfl | rfl | rfl
    · exact Or.inl rfl
    · rcases hexDigit_mem (b / 16) with h1 | h1
      · exact Or.inr (Or.inr (Or.inl h1))
      · exact Or.inr (Or.inr (Or.inr h1))
    · rcases hexDigit_mem b with h1 | h1
      · exact Or.inr (Or.inr (Or.inl h1))
      · exact Or.inr (Or.inr (Or.inr h1))

theorem encode_avoids {s : ByteStr} {b2 : Nat} (hb : b2 ∈ encode s) :
    b2 ≠ 125 ∧ b2 ≠ 38 ∧ b2 ≠ 61 := by
  rcases encode_byte_cases hb with h | h | h | h
  · omega
  · simp only [isUnreservedByte, Bool.or_eq_true, Bool.and_eq_true,
      decide_eq_true_eq, beq_iff_eq] at h
    omega
  · omega
  · omega

theorem intercalate_one_single (x : Nat) (p : ByteStr) :
    List.intercalate [x] [p] = p := by
  simp [List.intercalate, List.intersperse]

theorem intercalate_one_cons2 (x : Nat) (p q : ByteStr) (ps : List ByteStr) :
    List.intercalate [x] (p :: q :: ps) =
      p ++ x :: List.intercalate [x] (q :: ps) := by
  simp [List.intercalate, List.intersperse]

theorem mem_intercalate_one {x : Nat} {pieces : List ByteStr} {b : Nat}
    (hb : b ∈ List.intercalate [x] pieces) : b = x ∨ ∃ p ∈ pieces, b ∈ p := by
  induction pieces with
  | nil => simp [List.intercalate, List.intersperse] at hb
  | cons p ps ih =>
    cases ps with
    | nil =>
      rw [intercalate_one_single] at hb
      exact Or.inr ⟨p, List.mem_cons_self p [], hb⟩
    | cons q ps2 =>
      rw [intercalate_one_cons2] at hb
      rcases List.mem_append.mp hb with h | h
      · exact Or.inr ⟨p, List.mem_cons_self p _, h⟩
      · rcases List.mem_cons.mp h with rfl | h
        · exact Or.inl rfl
        · rcases ih h with h | ⟨r, hr, hbr⟩
          · exact Or.inl h
          · exact Or.inr ⟨r, List.mem_cons_of_mem p hr, hbr⟩

theorem queryString_no125 (params : List (ByteStr × ByteStr)) :
    125 ∉ (63 :: queryString params : ByteStr) := by
  intro h
  rcases List.mem_cons.mp h with h | h
  · omega
  · unfold queryString at h
    rcases mem_intercalate_one h with h | ⟨p, hp, hbp⟩
    · omega
    · rw [List.mem_map] at hp
      obtain ⟨kv, _, rfl⟩ := hp
      rcases List.mem_append.mp hbp with h | h
      · exact (encode_avoids h).1 rfl
      · rcases List.mem_cons.mp h with h | h
        · omega
        · exact (encode_avoids h).1 rfl

/-- C1: for every tile index and every current template and parameter
state, generate_url of DynamicUrlVtLoader returns the template with every
occurrence of the z, x and y placeholders replaced by the decimal
renderings of the index components, leaving no placeholder token anywhere
in the result, and, exactly when the parameter list is non-empty, with a
question-mark-prefixed query string appended consisting of the
percent-encoded pairs rendered key, equals sign, value and joined by
ampersands in insertion order; when the parameter list is empty nothing is
appended. -/
theorem generate_url_substitutes (template : ByteStr)
    (params : List (ByteStr × ByteStr)) (idx : TileIndex) :
    generate_url template params idx =
      specSubst (intDec idx.z) (intDec idx.x) (intDec idx.y) template ++
        (if params = [] then [] else 63 :: queryString params) ∧
    hasPat 122 (generate_url template params idx) = false ∧
    hasPat 120 (generate_url template params idx) = false ∧
    hasPat 121 (generate_url template params idx) = false := by
  have hmain := triple_repl_eq_specSubst (goodRep_intDec idx.z)
    (goodRep_intDec idx.x) (goodRep_intDec idx.y) (intDec_ne_nil idx.z)
    (intDec_ne_nil idx.x) (intDec_ne_nil idx.y) template
  have hsub : ∀ m, m = 120 ∨ m = 121 ∨ m = 122 →
      hasPat m (specSubst (intDec idx.z) (intDec idx.x) (intDec idx.y)
        template) = false :=
    fun _ hm => hasPat_specSubst hm (goodRep_intDec idx.z)
      (goodRep_intDec idx.x) (goodRep_intDec idx.y) (intDec_ne_nil idx.z)
      (intDec_ne_nil idx.x) (intDec_ne_nil idx.y) template
  by_cases hp : params = []
  · subst hp
    have hgen : generate_url template [] idx =
        specSubst (intDec idx.z) (intDec idx.x) (intDec idx.y) template := by
      unfold generate_url
      simp [hmain]
    refine ⟨by simp [hgen], ?_, ?_, ?_⟩ <;> rw [hgen]
    · exact hsub 122 (Or.inr (Or.inr rfl))
    · exact hsub 120 (Or.inl rfl)
    · exact hsub 121 (Or.inr (Or.inl rfl))
  · have hgen : generate_url template params idx =
        specSubst (intDec idx.z) (intDec idx.x) (intDec idx.y) template ++
          63 :: queryString params := by
      unfold generate_url
      have hne : params.isEmpty = false := by
        cases params with
        | nil => exact absurd rfl hp
        | cons a l => rfl
      simp [hne, hmain]
    refine ⟨by simp [hgen, hp], ?_, ?_, ?_⟩ <;>
      rw [hgen, hasPat_append_no125 (queryString_no125 params)]
    · exact hsub 122 (Or.inr (Or.inr rfl))
    · exact hsub 120 (Or.inl rfl)
    · exact hsub 121 (Or.inr (Or.inl rfl))

/-! Round trip of percent-encoding. -/

theorem hexVal_hexDigit (n : Nat) : hexVal (hexDigit n) = some (n % 16) := by
  have hlt : n % 16 < 16 := Nat.mod_lt n (by omega)
  unfold hexDigit
  by_cases h10 : n % 16 < 10
  · rw [if_pos h10]
    unfold hexVal
    rw [if_pos (by omega)]
    congr 1
    omega
  · rw [if_neg h10]
    unfold hexVal
    rw [if_neg (by omega), if_pos (by omega)]
    congr 1
    omega

theorem encode_cons (b : Nat) (t : ByteStr) :
    encode (b :: t) = encodeByte b ++ encode t := by
  simp [encode]

theorem percentDecode_cons_ne37 {c : Nat} (hc : c ≠ 37) (rest : ByteStr) :
    percentDecode (c :: rest) = c :: percentDecode rest := by
  cases rest with
  | nil => simp [percentDecode, hc]
  | cons h1 r1 =>
    cases r1 with
    | nil => simp [percentDecode, hc]
    | cons l r2 => simp [percentDecode, hc]

theorem percentDecode_escape {h1 l : Nat} {a b2 : Nat}
    (hh : hexVal h1 = some a) (hl : hexVal l = some b2) (rest : ByteStr) :
    percentDecode (37 :: h1 :: l :: rest) = (16 * a + b2) :: percentDecode rest := by
  simp [percentDecode, hh, hl]

theorem isUnreservedByte_ne37 {b : Nat} (h : isUnreservedByte b = true) : b ≠ 37 := by
  simp only [isUnreservedByte, Bool.or_eq_true, Bool.and_eq_true,
    decide_eq_true_eq, beq_iff_eq] at h
  omega

/-- Percent-decoding is a left inverse of the urlencoding crate's
percent-encoding on byte strings. -/
theorem percentDecode_encode {s : ByteStr} (h : wfStr s) :
    percentDecode (encode s) = s := by
  induction s with
  | nil => rfl
  | cons b t ih =>
    have hb : b < 256 := h b (List.mem_cons_self b t)
    have ht : wfStr t := fun x hx => h x (List.mem_cons_of_mem b hx)
    rw [encode_cons]
    unfold encodeByte
    by_cases hu : isUnreservedByte b = true
    · rw [if_pos hu, List.singleton_append,
        percentDecode_cons_ne37 (isUnreservedByte_ne37 hu), ih ht]
    · rw [if_neg hu, List.cons_append, List.cons_append, List.cons_append,
        List.nil_append,
        percentDecode_escape (hexVal_hexDigit (b / 16)) (hexVal_hexDigit b),
        ih ht]
      congr 1
      omega

/-- C7: for every non-empty parameter sequence of well-formed strings, the
query string generated by generate_url splits on ampersands into exactly
the encoded pairs in insertion order, each pair splits on its equals sign
into the encoded key and encoded value, and percent-decoding each of them
recovers the original key and value exactly. -/
theorem queryString_order_roundtrip (params : List (ByteStr × ByteStr))
    (hne : params ≠ []) (hwf : ∀ kv ∈ params, wfStr kv.1 ∧ wfStr kv.2) :
    (queryString params).splitOn 38 =
      params.map (fun kv => encode kv.1 ++ 61 :: encode kv.2) ∧
    ∀ kv ∈ params,
      (encode kv.1 ++ 61 :: encode kv.2).splitOn 61 =
        [encode kv.1, encode kv.2] ∧
      percentDecode (encode kv.1) = kv.1 ∧
      percentDecode (encode kv.2) = kv.2 := by
  constructor
  · unfold queryString
    apply List.splitOn_intercalate
    · intro l hl
      rw [List.mem_map] at hl
      obtain ⟨kv, _, rfl⟩ := hl
      intro hmem
      rcases List.mem_append.mp hmem with h | h
      · exact (encode_avoids h).2.1 rfl
      · rcases List.mem_cons.mp h with h | h
        · omega
        · exact (encode_avoids h).2.1 rfl
    · intro hmap
      exact hne (List.map_eq_nil_iff.mp hmap)
  · intro kv hkv
    refine ⟨?_, (percentDecode_encode (hwf kv hkv).1),
      (percentDecode_encode (hwf kv hkv).2)⟩
    have hform : encode kv.1 ++ 61 :: encode kv.2 =
        List.intercalate [61] [encode kv.1, encode kv.2] := by
      rw [intercalate_one_cons2, intercalate_one_single]
    rw [hform]
    apply List.splitOn_intercalate
    · intro l hl
      rcases List.mem_cons.mp hl with rfl | hl
      · intro hmem
        exact (encode_avoids hmem).2.2 rfl
      · rcases List.mem_cons.mp hl with rfl | hl
        · intro hmem
          exact (encode_avoids hmem).2.2 rfl
        · simp at hl
    · simp

/-- Witness for C7 at a concrete parameter list: one pair whose key is the
byte 107 and whose value is the single byte 32 (a space, which must be
percent-encoded). -/
theorem queryString_order_roundtrip_witness :
    (queryString [(([107] : ByteStr), ([32] : ByteStr))]).splitOn 38 =
      [(([107] : ByteStr), ([32] : ByteStr))].map
        (fun kv => encode kv.1 ++ 61 :: encode kv.2) ∧
    ∀ kv ∈ [(([107] : ByteStr), ([32] : ByteStr))],
      (encode kv.1 ++ 61 :: encode kv.2).splitOn 61 =
        [encode kv.1, encode kv.2] ∧
      percentDecode (encode kv.1) = kv.1 ∧
      percentDecode (encode kv.2) = kv.2 :=
  queryString_order_roundtrip [(([107] : ByteStr), ([32] : ByteStr))]
    (by decide)
    (by
      intro kv hkv
      simp only [List.mem_singleton] at hkv
      subst hkv
      refine ⟨?_, ?_⟩ <;> intro b hb <;>
        simp only [List.mem_singleton] at hb <;> omega)

/-- C3: for every URL whose key is in the cache, load_raw of both loaders
returns the cached bytes successfully and never invokes the platform fetch
capability, regardless of offline mode. -/
theorem load_raw_cache_hit (cache : Option (ByteStr → Option ByteStr))
    (offline_mode : Bool) (fetch : ByteStr → FetchOutcome)
    (insertOk : ByteStr → ByteStr → Bool) (url : ByteStr) (data : ByteStr)
    (h : cache.bind (fun get => get url) = some data) :
    (WebVtLoader.load_raw cache offline_mode fetch insertOk url).result =
        Except.ok data ∧
    (WebVtLoader.load_raw cache offline_mode fetch insertOk url).fetchCalls = 0 ∧
    (DynamicUrlVtLoader.load_raw cache offline_mode fetch insertOk url).result =
        Except.ok data ∧
    (DynamicUrlVtLoader.load_raw cache offline_mode fetch insertOk
      url).fetchCalls = 0 := by
  unfold WebVtLoader.load_raw DynamicUrlVtLoader.load_raw
  rw [h]
  exact ⟨rfl, rfl, rfl, rfl⟩

/-- Witness for C3 at a one-entry cache. -/
theorem load_raw_cache_hit_witness :
    (WebVtLoader.load_raw (some fun _ => some [9]) true
        (fun _ => FetchOutcome.otherError) (fun _ _ => false) [104]).result =
        Except.ok [9] ∧
    (WebVtLoader.load_raw (some fun _ => some [9]) true
        (fun _ => FetchOutcome.otherError) (fun _ _ => false)
        [104]).fetchCalls = 0 ∧
    (DynamicUrlVtLoader.load_raw (some fun _ => some [9]) true
        (fun _ => FetchOutcome.otherError) (fun _ _ => false) [104]).result =
        Except.ok [9] ∧
    (DynamicUrlVtLoader.load_raw (some fun _ => some [9]) true
        (fun _ => FetchOutcome.otherError) (fun _ _ => false)
        [104]).fetchCalls = 0 :=
  load_raw_cache_hit (some fun _ => some [9]) true
    (fun _ => FetchOutcome.otherError) (fun _ _ => false) [104] [9] rfl

/-- C4: on a cache miss (or no cache configured) with offline mode
enabled, load_raw of both loaders returns the DoesNotExist error and never
invokes the platform fetch capability. -/
theorem load_raw_offline_miss (cache : Option (ByteStr → Option ByteStr))
    (fetch : ByteStr → FetchOutcome) (insertOk : ByteStr → ByteStr → Bool)
    (url : ByteStr) (h : cache.bind (fun get => get url) = none) :
    (WebVtLoader.load_raw cache true fetch insertOk url).result =
        Except.error TileLoadError.DoesNotExist ∧
    (WebVtLoader.load_raw cache true fetch insertOk url).fetchCalls = 0 ∧
    (DynamicUrlVtLoader.load_raw cache true fetch insertOk url).result =
        Except.error TileLoadError.DoesNotExist ∧
    (DynamicUrlVtLoader.load_raw cache true fetch insertOk url).fetchCalls
        = 0 := by
  unfold WebVtLoader.load_raw DynamicUrlVtLoader.load_raw
  rw [h]
  exact ⟨rfl, rfl, rfl, rfl⟩

/-- Witness for C4 with no cache configured. -/
theorem load_raw_offline_miss_witness :
    (WebVtLoader.load_raw none true (fun _ => FetchOutcome.ok [1])
        (fun _ _ => true) [104]).result =
        Except.error TileLoadError.DoesNotExist ∧
    (WebVtLoader.load_raw none true (fun _ => FetchOutcome.ok [1])
        (fun _ _ => true) [104]).fetchCalls = 0 ∧
    (DynamicUrlVtLoader.load_raw none true (fun _ => FetchOutcome.ok [1])
        (fun _ _ => true) [104]).result =
        Except.error TileLoadError.DoesNotExist ∧
    (DynamicUrlVtLoader.load_raw none true (fun _ => FetchOutcome.ok [1])
        (fun _ _ => true) [104]).fetchCalls = 0 :=
  load_raw_offline_miss none (fun _ => FetchOutcome.ok [1])
    (fun _ _ => true) [104] rfl

/-- C5: on a cache miss in online mode load_raw delegates to the platform
fetch exactly once, maps the not-found outcome to DoesNotExist and every
other fetch failure to Network, in both loaders. -/
theorem load_raw_online_miss (cache : Option (ByteStr → Option ByteStr))
    (fetch : ByteStr → FetchOutcome) (insertOk : ByteStr → ByteStr → Bool)
    (url : ByteStr) (h : cache.bind (fun get => get url) = none) :
    (WebVtLoader.load_raw cache false fetch insertOk url).fetchCalls = 1 ∧
    (DynamicUrlVtLoader.load_raw cache false fetch insertOk url).fetchCalls
        = 1 ∧
    (fetch url = FetchOutcome.notFound →
      (WebVtLoader.load_raw cache false fetch insertOk url).result =
          Except.error TileLoadError.DoesNotExist ∧
      (DynamicUrlVtLoader.load_raw cache false fetch insertOk url).result =
          Except.error TileLoadError.DoesNotExist) ∧
    (fetch url = FetchOutcome.otherError →
      (WebVtLoader.load_raw cache false fetch insertOk url).result =
          Except.error TileLoadError.Network ∧
      (DynamicUrlVtLoader.load_raw cache false fetch insertOk url).result =
          Except.error TileLoadError.Network) := by
  unfold WebVtLoader.load_raw DynamicUrlVtLoader.load_raw
  rw [h]
  refine ⟨?_, ?_, ?_, ?_⟩
  · cases hf : fetch url with
    | ok bytes =>
      cases cache with
      | none => rfl
      | some get => by_cases hi : insertOk url bytes = true <;> simp [hi]
    | notFound => rfl
    | otherError => rfl
  · cases hf : fetch url with
    | ok bytes =>
      cases cache with
      | none => rfl
      | some get => by_cases hi : insertOk url bytes = true <;> simp [hi]
    | notFound => rfl
    | otherError => rfl
  · intro hf
    rw [hf]
    exact ⟨rfl, rfl⟩
  · intro hf
    rw [hf]
    exact ⟨rfl, rfl⟩

/-- Witness for C5 with no cache and a not-found fetch outcome. -/
theorem load_raw_online_miss_witness :
    (WebVtLoader.load_raw none false (fun _ => FetchOutcome.notFound)
        (fun _ _ => true) [104]).fetchCalls = 1 ∧
    (DynamicUrlVtLoader.load_raw none false (fun _ => FetchOutcome.notFound)
        (fun _ _ => true) [104]).fetchCalls = 1 ∧
    ((fun _ => FetchOutcome.notFound : ByteStr → FetchOutcome) [104] =
        FetchOutcome.notFound →
      (WebVtLoader.load_raw none false (fun _ => FetchOutcome.notFound)
          (fun _ _ => true) [104]).result =
          Except.error TileLoadError.DoesNotExist ∧
      (DynamicUrlVtLoader.load_raw none false
          (fun _ => FetchOutcome.notFound) (fun _ _ => true) [104]).result =
          Except.error TileLoadError.DoesNotExist) ∧
    ((fun _ => FetchOutcome.notFound : ByteStr → FetchOutcome) [104] =
        FetchOutcome.otherError →
      (WebVtLoader.load_raw none false (fun _ => FetchOutcome.notFound)
          (fun _ _ => true) [104]).result =
          Except.error TileLoadError.Network ∧
      (DynamicUrlVtLoader.load_raw none false
          (fun _ => FetchOutcome.notFound) (fun _ _ => true) [104]).result =
          Except.error TileLoadError.Network) :=
  load_raw_online_miss none (fun _ => FetchOutcome.notFound)
    (fun _ _ => true) [104] rfl

/-- C6: the returned value of load_raw, and hence the decoded tile of
load, does not depend on whether the cache insert succeeds: only the log
differs.  This holds for both loaders, for every cache, fetch outcome and
pair of insert behaviors. -/
theorem load_insert_failure_swallowed {Tile : Type}
    (decode : ByteStr → Option Tile) (cache : Option (ByteStr → Option ByteStr))
    (offline_mode : Bool) (fetch : ByteStr → FetchOutcome)
    (ins1 ins2 : ByteStr → ByteStr → Bool) (url : ByteStr)
    (url_source : TileIndex → ByteStr) (template : ByteStr)
    (params : List (ByteStr × ByteStr)) (index : TileIndex) :
    (WebVtLoader.load_raw cache offline_mode fetch ins1 url).result =
        (WebVtLoader.load_raw cache offline_mode fetch ins2 url).result ∧
    (DynamicUrlVtLoader.load_raw cache offline_mode fetch ins1 url).result =
        (DynamicUrlVtLoader.load_raw cache offline_mode fetch ins2 url).result ∧
    WebVtLoader.load decode cache offline_mode fetch ins1 url_source index =
        WebVtLoader.load decode cache offline_mode fetch ins2 url_source index ∧
    DynamicUrlVtLoader.load decode template params cache offline_mode fetch
        ins1 index =
      DynamicUrlVtLoader.load decode template params cache offline_mode fetch
        ins2 index := by
  have hraw : ∀ u, (WebVtLoader.load_raw cache offline_mode fetch ins1 u).result =
      (WebVtLoader.load_raw cache offline_mode fetch ins2 u).result := by
    intro u
    unfold WebVtLoader.load_raw
    cases cache.bind (fun get => get u) with
    | some data => rfl
    | none =>
      by_cases hoff : offline_mode = true
      · simp [hoff]
      · simp only [Bool.not_eq_true] at hoff
        simp only [hoff, if_false]
        cases fetch u with
        | ok bytes =>
          cases cache with
          | none => rfl
          | some get =>
            by_cases h1 : ins1 u bytes = true <;>
              by_cases h2 : ins2 u bytes = true <;> simp [h1, h2]
        | notFound => rfl
        | otherError => rfl
  have hraw2 : ∀ u, (DynamicUrlVtLoader.load_raw cache offline_mode fetch
      ins1 u).result =
      (DynamicUrlVtLoader.load_raw cache offline_mode fetch ins2 u).result := by
    intro u
    unfold DynamicUrlVtLoader.load_raw
    cases cache.bind (fun get => get u) with
    | some data => rfl
    | none =>
      by_cases hoff : offline_mode = true
      · simp [hoff]
      · simp only [Bool.not_eq_true] at hoff
        simp only [hoff, if_false]
        cases fetch u with
        | ok bytes =>
          cases cache with
          | none => rfl
          | some get =>
            by_cases h1 : ins1 u bytes = true <;>
              by_cases h2 : ins2 u bytes = true <;> simp [h1, h2]
        | notFound => rfl
        | otherError => rfl
  refine ⟨hraw url, hraw2 url, ?_, ?_⟩
  · unfold WebVtLoader.load
    rw [hraw (url_source index)]
  · unfold DynamicUrlVtLoader.load
    rw [hraw2 (generate_url template params index)]


theorem foldl_add_point_points (paint : PointPaint) (res : ℚ) :
    ∀ (ps : List Point3) (bundle : RenderBundle),
      (ps.foldl (fun b p => b.add_point p paint res)
          bundle).world_set.points =
        bundle.world_set.points ++ ps.map (fun p => (p, paint)) := by
  intro ps
  induction ps with
  | nil => intro bundle; simp
  | cons p ps ih =>
    intro bundle
    rw [List.foldl_cons, ih]
    simp [RenderBundle.add_point, WorldRenderSet.add_point]

theorem foldl_add_point_screen (paint : PointPaint) (res : ℚ) :
    ∀ (ps : List Point3) (bundle : RenderBundle),
      (ps.foldl (fun b p => b.add_point p paint res) bundle).screen_sets =
        bundle.screen_sets := by
  intro ps
  induction ps with
  | nil => intro bundle; rfl
  | cons p ps ih =>
    intro bundle
    rw [List.foldl_cons, ih]
    rfl

theorem foldl_add_marker_screen (style : MarkerStyle) :
    ∀ (ps : List Point3) (bundle : RenderBundle),
      (ps.foldl (fun b p => b.add_marker p style) bundle).screen_sets =
        bundle.screen_sets ++
          ps.map (fun p => (⟨p, ScreenSetContent.marker style⟩ :
            ScreenRenderSet)) := by
  intro ps
  induction ps with
  | nil => intro bundle; simp
  | cons p ps ih =>
    intro bundle
    rw [List.foldl_cons, ih]
    simp [RenderBundle.add_marker, ScreenRenderSet.new_from_marker]

theorem foldl_add_marker_world (style : MarkerStyle) :
    ∀ (ps : List Point3) (bundle : RenderBundle),
      (ps.foldl (fun b p => b.add_marker p style) bundle).world_set =
        bundle.world_set := by
  intro ps
  induction ps with
  | nil => intro bundle; rfl
  | cons p ps ih =>
    intro bundle
    rw [List.foldl_cons, ih]
    rfl

theorem foldl_double_point_points (paintA paintB : PointPaint) (res : ℚ) :
    ∀ (ps : List Point3) (bundle : RenderBundle),
      (ps.foldl (fun b p =>
          (b.add_point p paintA res).add_point p paintB res)
          bundle).world_set.points =
        bundle.world_set.points ++
          (ps.map (fun p => [(p, paintA), (p, paintB)])).flatten := by
  intro ps
  induction ps with
  | nil => intro bundle; simp
  | cons p ps ih =>
    intro bundle
    rw [List.foldl_cons, ih]
    simp [RenderBundle.add_point, WorldRenderSet.add_point]

theorem foldl_double_point_screen (paintA paintB : PointPaint) (res : ℚ) :
    ∀ (ps : List Point3) (bundle : RenderBundle),
      (ps.foldl (fun b p =>
          (b.add_point p paintA res).add_point p paintB res)
          bundle).screen_sets = bundle.screen_sets := by
  intro ps
  induction ps with
  | nil => intro bundle; rfl
  | cons p ps ih =>
    intro bundle
    rw [List.foldl_cons, ih]
    rfl

theorem flatten_pairs_length {α β : Type} (f g : α → β) :
    ∀ ps : List α,
      ((ps.map (fun p => [f p, g p])).flatten).length = 2 * ps.length := by
  intro ps
  induction ps with
  | nil => rfl
  | cons p ps ih => simp [ih]; omega

/-- C2: add_label with attach_to_map true adds the label to the world set
and appends no screen set entry; with attach_to_map false it appends
exactly one new screen set entry holding that label and leaves the world
set unchanged. -/
theorem add_label_routing (bundle : RenderBundle) (position : Point3)
    (text : String) (style : TextStyle) (offset : Vector2) :
    (bundle.add_label position text style offset true).world_set.labels =
        bundle.world_set.labels ++ [(position, text, style, offset)] ∧
    (bundle.add_label position text style offset true).screen_sets =
        bundle.screen_sets ∧
    (bundle.add_label position text style offset false).screen_sets =
        bundle.screen_sets ++
          [⟨position, ScreenSetContent.label text style offset⟩] ∧
    (bundle.add_label position text style offset false).world_set =
        bundle.world_set :=
  ⟨rfl, rfl, rfl, rfl⟩

/-- C8: rendering a multi-point geometry with N points through the
world-anchored CirclePointSymbol adds exactly N independent entries, one
per point, to the world point collection (screen sets untouched), and
through the screen-anchored ImagePointSymbol appends exactly N screen-set
entries, one per point (world set untouched) — never one aggregate
entry. -/
theorem multipoint_expansion {F : Type} (feature : F)
    (circle : CirclePointSymbol) (img : ImagePointSymbol)
    (ps : List Point3) (min_resolution : ℚ) (bundle : RenderBundle) :
    (circle.render feature (Geom.multiPoint ps) min_resolution
        bundle).world_set.points =
      bundle.world_set.points ++
        ps.map (fun p => (p, PointPaint.circle circle.color circle.size)) ∧
    (circle.render feature (Geom.multiPoint ps) min_resolution
        bundle).world_set.points.length =
      bundle.world_set.points.length + ps.length ∧
    (circle.render feature (Geom.multiPoint ps) min_resolution
        bundle).screen_sets = bundle.screen_sets ∧
    (img.render feature (Geom.multiPoint ps) min_resolution
        bundle).screen_sets =
      bundle.screen_sets ++
        ps.map (fun p => (⟨p, ScreenSetContent.marker
          (MarkerStyle.image img.image img.offset
            (some ⟨(img.image.width : ℚ) * img.scale,
                   (img.image.height : ℚ) * img.scale⟩))⟩ :
          ScreenRenderSet)) ∧
    (img.render feature (Geom.multiPoint ps) min_resolution
        bundle).screen_sets.length =
      bundle.screen_sets.length + ps.length ∧
    (img.render feature (Geom.multiPoint ps) min_resolution
        bundle).world_set = bundle.world_set := by
  have e1 : circle.render feature (Geom.multiPoint ps) min_resolution bundle =
      ps.foldl (fun b p =>
        b.add_point p (PointPaint.circle circle.color circle.size)
          min_resolution) bundle := rfl
  have e2 : img.render feature (Geom.multiPoint ps) min_resolution bundle =
      ps.foldl (fun b p =>
        b.add_marker p (MarkerStyle.image img.image img.offset
          (some ⟨(img.image.width : ℚ) * img.scale,
                 (img.image.height : ℚ) * img.scale⟩))) bundle := rfl
  rw [e1, e2, foldl_add_point_points, foldl_add_point_screen,
    foldl_add_marker_screen, foldl_add_marker_world]
  refine ⟨rfl, by simp, rfl, rfl, by simp, rfl⟩

/-- C9: RenderBundle add_point ignores its min_resolution argument — any
two values produce identical bundles — while add_line and add_polygon
forward theirs into the world set. -/
theorem add_point_ignores_min_resolution (bundle : RenderBundle)
    (point : Point3) (paint : PointPaint) (r1 r2 : ℚ) (line : Contour)
    (lp : LinePaint) (pg : PolygonGeom) (pp : PolygonPaint) :
    bundle.add_point point paint r1 = bundle.add_point point paint r2 ∧
    (bundle.add_line line lp r1).world_set.lines =
        bundle.world_set.lines ++ [(line, lp, r1)] ∧
    (bundle.add_polygon pg pp r1).world_set.polygons =
        bundle.world_set.polygons ++ [(pg, pp, r1)] :=
  ⟨rfl, rfl, rfl⟩

/-- C10: TextMarkerSymbol render submits, for each point, exactly two
world primitives through add_point — first a black background square whose
side is the maximum of the padded estimated text width and the padded text
height, then the text label — and never appends a screen set entry; a
multi-point geometry with N points yields 2 N such world submissions. -/
theorem text_marker_render_spec {F : Type} (s : TextMarkerSymbol)
    (get_text : F → String) (feature : F) (p : Point3)
    (ps : List Point3) (min_resolution : ℚ) (bundle : RenderBundle) :
    (s.render get_text feature (Geom.point p) min_resolution
        bundle).world_set.points =
      bundle.world_set.points ++
        [(p, PointPaint.square Color.BLACK
            (max (s.text_style.font_size * (3 / 5) *
                ((get_text feature).utf8ByteSize : ℚ) + s.padding * 2)
              (s.text_style.font_size + s.padding * 2))),
         (p, PointPaint.label (get_text feature) s.text_style)] ∧
    (s.render get_text feature (Geom.point p) min_resolution
        bundle).screen_sets = bundle.screen_sets ∧
    (s.render get_text feature (Geom.multiPoint ps) min_resolution
        bundle).world_set.points =
      bundle.world_set.points ++
        (ps.map (fun q =>
          [(q, PointPaint.square Color.BLACK
              (max (s.text_style.font_size * (3 / 5) *
                  ((get_text feature).utf8ByteSize : ℚ) + s.padding * 2)
                (s.text_style.font_size + s.padding * 2))),
           (q, PointPaint.label (get_text feature) s.text_style)])).flatten ∧
    (s.render get_text feature (Geom.multiPoint ps) min_resolution
        bundle).world_set.points.length =
      bundle.world_set.points.length + 2 * ps.length ∧
    (s.render get_text feature (Geom.multiPoint ps) min_resolution
        bundle).screen_sets = bundle.screen_sets := by
  have e1 : s.render get_text feature (Geom.point p) min_resolution bundle =
      (bundle.add_point p
        (PointPaint.square Color.BLACK
          (max (s.text_style.font_size * (3 / 5) *
              ((get_text feature).utf8ByteSize : ℚ) + s.padding * 2)
            (s.text_style.font_size + s.padding * 2)))
        min_resolution).add_point p
        (PointPaint.label (get_text feature) s.text_style)
        min_resolution := rfl
  have e2 : s.render get_text feature (Geom.multiPoint ps) min_resolution
      bundle =
      ps.foldl (fun b q =>
        (b.add_point q
          (PointPaint.square Color.BLACK
            (max (s.text_style.font_size * (3 / 5) *
                ((get_text feature).utf8ByteSize : ℚ) + s.padding * 2)
              (s.text_style.font_size + s.padding * 2)))
          min_resolution).add_point q
          (PointPaint.label (get_text feature) s.text_style)
          min_resolution) bundle := rfl
  rw [e1, e2, foldl_double_point_points, foldl_double_point_screen]
  refine ⟨?_, rfl, rfl, ?_, rfl⟩
  · simp [RenderBundle.add_point, WorldRenderSet.add_point]
  · rw [List.length_append, flatten_pairs_length]

end Galileo
